import Mathlib

/-!
# Verification of the permachine synthesis pipeline

Shallow embedding of the core of the `permachine` repository:

* `src/adapters/json-adapter.ts`     — structured-data (JSON/JSONC) deep merge
* `src/adapters/markdown-adapter.ts` — text-append merge
* `src/core/file-filters.ts`         — filter predicate language
* `src/core/file-scanner.ts`         — operation scanner and conflict validation
* `src/core/merger.ts`               — merge executor
* `src/core/cleanup.ts`              — stale-output cleanup and soft deletion

JavaScript values are modelled by explicit inductive types; JavaScript
strings by Lean `String` (the paths and names in the claims are ASCII, where
the two agree); the filesystem, an external collaborator, by explicit finite
maps threaded through the functions; fallible code by `Except`.  External
library calls (`glob`, `JSON.parse`) are modelled as parameters: the scanner
receives the lists the globs returned, the merge executor receives the
adapter the factory selected.
-/

set_option autoImplicit false

namespace Permachine

/-! ## The JSON value model

A JavaScript value as produced by `JSON.parse`: `null`, booleans, numbers,
strings, arrays and plain objects.  Objects are ordered association lists
with (as in a JS object) unique keys; numbers carry an `Int` — the merge
code performs no arithmetic, only `Set`-membership equality, for which
integer values suffice. -/

inductive Json where
  | null : Json
  | bool (b : Bool) : Json
  | num (n : Int) : Json
  | str (s : String) : Json
  | arr (elems : List Json) : Json
  | obj (fields : List (String × Json)) : Json
  deriving Repr

mutual

/-- Structural equality on `Json`.  JS `Set.has` uses SameValueZero, which on
primitives (the only values the merge ever compares) is agreement in both
type and value. -/
def Json.beq : Json → Json → Bool
  | .null, .null => true
  | .bool a, .bool b => a == b
  | .num a, .num b => a == b
  | .str a, .str b => a == b
  | .arr a, .arr b => Json.beqList a b
  | .obj a, .obj b => Json.beqObj a b
  | _, _ => false

/-- `Json.beq` lifted to element lists. -/
def Json.beqList : List Json → List Json → Bool
  | [], [] => true
  | x :: xs, y :: ys => Json.beq x y && Json.beqList xs ys
  | _, _ => false

/-- `Json.beq` lifted to field lists. -/
def Json.beqObj : List (String × Json) → List (String × Json) → Bool
  | [], [] => true
  | (k, v) :: xs, (k', v') :: ys => k == k' && Json.beq v v' && Json.beqObj xs ys
  | _, _ => false

end

instance : BEq Json := ⟨Json.beq⟩

theorem Json.beq_refl : ∀ j : Json, Json.beq j j = true := by
  refine Json.rec
    (motive_1 := fun j => Json.beq j j = true)
    (motive_2 := fun l => Json.beqList l l = true)
    (motive_3 := fun l => Json.beqObj l l = true)
    (motive_4 := fun p => Json.beq p.2 p.2 = true)
    rfl (fun b => by simp [Json.beq]) (fun n => by simp [Json.beq])
    (fun s => by simp [Json.beq])
    (fun elems ih => ih) (fun fields ih => ih)
    rfl (fun head tail ih1 ih2 => by simp [Json.beqList, ih1, ih2])
    rfl ?_ (fun fst snd ih => ih)
  intro head tail ih1 ih2
  obtain ⟨k, v⟩ := head
  simp only [Json.beqObj, beq_self_eq_true, Bool.true_and]
  exact by simp [ih1, ih2]

theorem Json.eq_of_beq : ∀ {a b : Json}, Json.beq a b = true → a = b := by
  have main : ∀ a : Json, ∀ b, Json.beq a b = true → a = b := by
    refine Json.rec
      (motive_1 := fun a => ∀ b, Json.beq a b = true → a = b)
      (motive_2 := fun l => ∀ l', Json.beqList l l' = true → l = l')
      (motive_3 := fun l => ∀ l', Json.beqObj l l' = true → l = l')
      (motive_4 := fun p => ∀ q, Json.beq p.2 q = true → p.2 = q)
      ?hnull ?hbool ?hnum ?hstr ?harr ?hobj ?hlnil ?hlcons ?honil ?hocons ?hpair
    case hnull => intro b h; cases b <;> simp_all [Json.beq]
    case hbool => intro x b h; cases b <;> simp_all [Json.beq]
    case hnum => intro x b h; cases b <;> simp_all [Json.beq]
    case hstr => intro x b h; cases b <;> simp_all [Json.beq]
    case harr =>
      intro elems ih b h
      cases b <;> simp_all [Json.beq]
      exact ih _ h
    case hobj =>
      intro fields ih b h
      cases b <;> simp_all [Json.beq]
      exact ih _ h
    case hlnil => intro l' h; cases l' <;> simp_all [Json.beqList]
    case hlcons =>
      intro head tail ih1 ih2 l' h
      cases l' with
      | nil => simp_all [Json.beqList]
      | cons y ys =>
        simp only [Json.beqList, Bool.and_eq_true] at h
        exact by rw [ih1 y h.1, ih2 ys h.2]
    case honil => intro l' h; cases l' <;> simp_all [Json.beqObj]
    case hocons =>
      intro head tail ih1 ih2 l' h
      obtain ⟨k, v⟩ := head
      cases l' with
      | nil => simp_all [Json.beqObj]
      | cons q qs =>
        obtain ⟨k', v'⟩ := q
        simp only [Json.beqObj, Bool.and_eq_true] at h
        have hk : k = k' := by simpa using h.1.1
        have hv : v = v' := ih1 v' h.1.2
        rw [hk, hv, ih2 qs h.2]
    case hpair => intro fst snd ih q h; exact ih q h
  intro a b
  exact main a b

instance : LawfulBEq Json where
  eq_of_beq := Json.eq_of_beq
  rfl := Json.beq_refl _

instance : DecidableEq Json := fun a b =>
  if h : Json.beq a b = true then .isTrue (Json.eq_of_beq h)
  else .isFalse (fun he => h (he ▸ Json.beq_refl a))

/-! ## The structured-data adapter (`src/adapters/json-adapter.ts`)

`JsonAdapter.deepMerge` and its helpers, translated clause for clause.
Thrown exceptions become `Except.error`; the typed `ArrayMergeError`
(`src/core/errors.ts`) carries the offending key path. -/

/-- `ArrayMergeError` from `src/core/errors.ts`: the typed error thrown when
an array merge meets a non-primitive element. -/
structure ArrayMergeError where
  key : String
  deriving Repr, DecidableEq

namespace JsonAdapter

/-- `JsonAdapter.isPrimitive`: `null`, string, number or boolean. -/
def isPrimitive : Json → Bool
  | .null => true
  | .str _ => true
  | .num _ => true
  | .bool _ => true
  | _ => false

/-- `JsonAdapter.isArrayOfPrimitives`: every element is a primitive. -/
def isArrayOfPrimitives (a : List Json) : Bool :=
  a.all fun item => isPrimitive item

/-- One step of the `seen`/`result` loop in `JsonAdapter.mergeArrays`: push
the item unless an equal value (JS `Set.has`, type- and value-sensitive) was
already seen. -/
def addUnique (st : List Json × List Json) (item : Json) : List Json × List Json :=
  if st.1.contains item then st else (item :: st.1, st.2 ++ [item])

/-- `JsonAdapter.mergeArrays`: reject non-primitive elements with a typed
`ArrayMergeError`, else de-duplicate base values in order, then append
machine values not already present. -/
def mergeArrays (base machine : List Json) (path : String) :
    Except ArrayMergeError (List Json) :=
  if !isArrayOfPrimitives base || !isArrayOfPrimitives machine then
    .error ⟨if path = "" then "root" else path⟩
  else
    let st1 := base.foldl addUnique ([], [])
    let st2 := machine.foldl addUnique st1
    .ok st2.2

/-- First match of a key in an object's field list (JS `key in result` /
`result[key]`; keys of a JS object are unique). -/
def lookupField : List (String × Json) → String → Option Json
  | [], _ => none
  | (k, v) :: rest, key => if k == key then some v else lookupField rest key

/-- In-place update of a key's value (JS `result[key] = ...`): the field
keeps its position. -/
def setField : List (String × Json) → String → Json → List (String × Json)
  | [], _, _ => []
  | (k, v) :: rest, key, nv =>
    if k == key then (key, nv) :: rest else (k, v) :: setField rest key nv

/-- The child path `path ? path + "." + key : key` used for error reporting
inside `deepMerge`. -/
def childPath (path key : String) : String :=
  if path = "" then key else path ++ "." ++ key

mutual

/-- `JsonAdapter.deepMerge`: both arrays ⇒ `mergeArrays`; machine not a plain
object ⇒ machine wins; base not a plain object ⇒ machine wins; both plain
objects ⇒ keywise recursive merge. -/
def deepMerge (base machine : Json) (path : String) : Except ArrayMergeError Json :=
  match base, machine with
  | .arr bs, .arr ms => (mergeArrays bs ms path).map Json.arr
  | .obj bf, .obj mf => (mergeFields bf mf path).map Json.obj
  | _, machine => .ok machine

/-- The `for (const key in machine)` loop of `deepMerge`: `acc` starts as
`{...base}`; a key already present recurses, a new key is appended. -/
def mergeFields (acc mf : List (String × Json)) (path : String) :
    Except ArrayMergeError (List (String × Json)) :=
  match mf with
  | [] => .ok acc
  | (key, v) :: rest =>
    let newPath := childPath path key
    match lookupField acc key with
    | some bv =>
      match deepMerge bv v newPath with
      | .ok mv => mergeFields (setField acc key mv) rest path
      | .error e => .error e
    | none => mergeFields (acc ++ [(key, v)]) rest path

end

/-- `JsonAdapter.merge` is `deepMerge` starting at the empty path. -/
def merge (base machine : Json) : Except ArrayMergeError Json :=
  deepMerge base machine ""

end JsonAdapter

/-! Spec-side description of the array rule, written from the spec's words
(for comparison against `mergeArrays`): the result is "the base array
de-duplicated in base order followed by overlay elements not already
present". -/

/-- Spec's words: the elements of `l` in order, skipping any whose value
(type- and value-sensitive) already occurred in `seen` or earlier in `l`. -/
def elemsNotSeen (seen : List Json) : List Json → List Json
  | [] => []
  | x :: xs => if seen.contains x then elemsNotSeen seen xs
               else x :: elemsNotSeen (x :: seen) xs

/-- Spec's words: "the base array de-duplicated in base order". -/
def dedupPreservingOrder (l : List Json) : List Json :=
  elemsNotSeen [] l

/-- Spec's words: "overlay elements not already present" (in the base or
earlier in the overlay). -/
def novelOverlayElems (base overlay : List Json) : List Json :=
  elemsNotSeen base overlay

namespace JsonAdapter

theorem foldl_addUnique_snd (l : List Json) (seen acc : List Json) :
    (l.foldl addUnique (seen, acc)).2 = acc ++ elemsNotSeen seen l := by
  induction l generalizing seen acc with
  | nil => simp [elemsNotSeen]
  | cons x xs ih =>
    by_cases h : x ∈ seen
    · simp [addUnique, elemsNotSeen, h, ih]
    · simp [addUnique, elemsNotSeen, h, ih]

theorem mem_foldl_addUnique_fst (l : List Json) (seen acc : List Json) (x : Json) :
    x ∈ (l.foldl addUnique (seen, acc)).1 ↔ x ∈ seen ∨ x ∈ l := by
  induction l generalizing seen acc with
  | nil => simp
  | cons y ys ih =>
    rw [List.foldl_cons]
    by_cases h : y ∈ seen
    · have hc : addUnique (seen, acc) y = (seen, acc) := by simp [addUnique, h]
      rw [hc, ih]
      constructor
      · rintro (hs | hs)
        · exact Or.inl hs
        · exact Or.inr (List.mem_cons_of_mem _ hs)
      · rintro (hs | hs)
        · exact Or.inl hs
        · rcases List.mem_cons.mp hs with rfl | hs
          · exact Or.inl h
          · exact Or.inr hs
    · have hc : addUnique (seen, acc) y = (y :: seen, acc ++ [y]) := by
        simp [addUnique, h]
      rw [hc, ih]
      simp only [List.mem_cons]
      tauto

theorem elemsNotSeen_congr (s₁ s₂ l : List Json) (h : ∀ x, x ∈ s₁ ↔ x ∈ s₂) :
    elemsNotSeen s₁ l = elemsNotSeen s₂ l := by
  induction l generalizing s₁ s₂ with
  | nil => rfl
  | cons x xs ih =>
    by_cases hx : x ∈ s₂
    · have h1 : x ∈ s₁ := (h x).mpr hx
      simp [elemsNotSeen, hx, h1, ih s₁ s₂ h]
    · have h1 : x ∉ s₁ := fun hh => hx ((h x).mp hh)
      simp only [elemsNotSeen]
      rw [show s₁.contains x = false by simp [h1],
          show s₂.contains x = false by simp [hx]]
      simp only [Bool.false_eq_true, if_false]
      rw [ih (x :: s₁) (x :: s₂) (by intro y; simp [List.mem_cons, h y])]

/-- The loop of `mergeArrays` computes exactly the spec's description:
base de-duplicated in order, then novel overlay elements. -/
theorem mergeArrays_eq_spec (base machine : List Json) (path : String)
    (hb : isArrayOfPrimitives base = true) (hm : isArrayOfPrimitives machine = true) :
    mergeArrays base machine path
      = .ok (dedupPreservingOrder base ++ novelOverlayElems base machine) := by
  unfold mergeArrays
  rw [hb, hm]
  simp only [Bool.not_true, Bool.or_self, Bool.false_eq_true, if_false]
  congr 1
  rw [foldl_addUnique_snd]
  have h2 : (base.foldl addUnique ([], [])).2 = elemsNotSeen [] base := by
    rw [foldl_addUnique_snd]; simp
  have h1 : base.foldl addUnique ([], [])
      = ((base.foldl addUnique ([], [])).1, elemsNotSeen [] base) := by
    rw [← h2]
  rw [show (base.foldl addUnique ([], [])) = ((base.foldl addUnique ([], [])).1,
        elemsNotSeen [] base) from h1]
  unfold dedupPreservingOrder novelOverlayElems
  congr 1
  apply elemsNotSeen_congr
  intro x
  rw [show ((base.foldl addUnique ([], [])).1, elemsNotSeen [] base).1
        = (base.foldl addUnique ([], [])).1 from rfl]
  rw [mem_foldl_addUnique_fst]
  simp

theorem lookupField_setField_self (l : List (String × Json)) (key : String)
    (bv nv : Json) (h : lookupField l key = some bv) :
    lookupField (setField l key nv) key = some nv := by
  induction l with
  | nil => simp [lookupField] at h
  | cons p rest ih =>
    obtain ⟨k, v⟩ := p
    by_cases hk : (k == key) = true
    · simp [setField, lookupField, hk]
    · simp only [lookupField, setField, hk, Bool.false_eq_true, if_false] at h ⊢
      exact ih h

theorem lookupField_setField_other (l : List (String × Json)) (key k : String)
    (nv : Json) (h : k ≠ key) :
    lookupField (setField l key nv) k = lookupField l k := by
  induction l with
  | nil => rfl
  | cons p rest ih =>
    obtain ⟨k', v⟩ := p
    by_cases hk' : (k' == key) = true
    · have hkeq : k' = key := eq_of_beq hk'
      subst hkeq
      have hf : (k' == k) = false := by
        simp only [beq_eq_false_iff_ne, ne_eq]
        exact fun he => h he.symm
      simp [setField, lookupField, hk', hf]
    · simp only [setField, hk', Bool.false_eq_true, if_false, lookupField]
      by_cases hkk : (k' == k) = true
      · simp [hkk]
      · simp [hkk, ih]

theorem lookupField_append_of_some (l t : List (String × Json)) (key : String)
    (v : Json) (h : lookupField l key = some v) :
    lookupField (l ++ t) key = some v := by
  induction l with
  | nil => simp [lookupField] at h
  | cons p rest ih =>
    obtain ⟨k, w⟩ := p
    by_cases hk : (k == key) = true
    · simp only [lookupField, hk, if_true] at h ⊢
      simpa using h
    · simp only [List.cons_append, lookupField, hk, Bool.false_eq_true, if_false] at h ⊢
      exact ih h

theorem lookupField_append_single_of_none (l : List (String × Json)) (key k : String)
    (v : Json) (h : lookupField l key = none) :
    lookupField (l ++ [(k, v)]) key = if k == key then some v else none := by
  induction l with
  | nil => simp [lookupField]
  | cons p rest ih =>
    obtain ⟨k', w⟩ := p
    by_cases hk : (k' == key) = true
    · simp [lookupField, hk] at h
    · simp only [List.cons_append, lookupField, hk, Bool.false_eq_true, if_false] at h ⊢
      exact ih h

/-- Keys not iterated by the machine loop keep their looked-up value. -/
theorem mergeFields_preserve (mf : List (String × Json)) (acc : List (String × Json))
    (path : String) (key : String) (res : List (String × Json))
    (hkey : ∀ p ∈ mf, p.1 ≠ key)
    (h : mergeFields acc mf path = .ok res) :
    lookupField res key = lookupField acc key := by
  induction mf generalizing acc with
  | nil => simp only [mergeFields] at h; cases h; rfl
  | cons p rest ih =>
    obtain ⟨k, v⟩ := p
    have hk : k ≠ key := hkey (k, v) (List.mem_cons_self _ _)
    simp only [mergeFields] at h
    split at h
    next bv heq =>
      split at h
      next mv heq2 =>
        have := ih (setField acc k mv) (fun p hp => hkey p (List.mem_cons_of_mem _ hp)) h
        rw [this, lookupField_setField_other _ _ _ _ (fun he => hk he.symm)]
      next e heq2 => simp at h
    next heq =>
      have := ih (acc ++ [(k, v)]) (fun p hp => hkey p (List.mem_cons_of_mem _ hp)) h
      rw [this]
      cases hacck : lookupField acc key with
      | some w => exact lookupField_append_of_some _ _ _ _ hacck
      | none =>
        rw [lookupField_append_single_of_none _ _ _ _ hacck]
        have hf : (k == key) = false := by simpa using hk
        simp [hf]

/-- A key present on both sides of an object merge is merged recursively:
its value in the result is `deepMerge` of the two sides' values. -/
theorem mergeFields_lookup_shared (mf : List (String × Json)) (acc : List (String × Json))
    (path key : String) (bv mv : Json) (res : List (String × Json))
    (hnodup : (mf.map Prod.fst).Nodup)
    (hmf : lookupField mf key = some mv)
    (hacc : lookupField acc key = some bv)
    (h : mergeFields acc mf path = .ok res) :
    ∃ r, deepMerge bv mv (childPath path key) = .ok r ∧ lookupField res key = some r := by
  induction mf generalizing acc with
  | nil => simp [lookupField] at hmf
  | cons p rest ih =>
    obtain ⟨k, v⟩ := p
    simp only [List.map_cons, List.nodup_cons] at hnodup
    simp only [mergeFields] at h
    split at h
    next bv' heq =>
      split at h
      next mv' heq2 =>
        by_cases hk : (k == key) = true
        · have hkeq : k = key := eq_of_beq hk
          subst hkeq
          simp only [lookupField, hk, if_true] at hmf
          cases hmf
          rw [hacc] at heq
          cases heq
          refine ⟨mv', heq2, ?_⟩
          have hrest : ∀ p ∈ rest, p.1 ≠ k := by
            intro p hp he
            exact hnodup.1 (he ▸ List.mem_map_of_mem Prod.fst hp)
          rw [mergeFields_preserve rest _ path k res hrest h]
          exact lookupField_setField_self _ _ _ _ hacc
        · simp only [lookupField, hk, Bool.false_eq_true, if_false] at hmf
          have hkne : k ≠ key := by simpa using hk
          refine ih _ hnodup.2 hmf ?_ h
          rw [lookupField_setField_other _ _ _ _ (fun he => hkne he.symm)]
          exact hacc
      next e heq2 => simp at h
    next heq =>
      by_cases hk : (k == key) = true
      · have hkeq : k = key := eq_of_beq hk
        subst hkeq
        rw [heq] at hacc
        cases hacc
      · simp only [lookupField, hk, Bool.false_eq_true, if_false] at hmf
        refine ih _ hnodup.2 hmf ?_ h
        exact lookupField_append_of_some _ _ _ _ hacc

end JsonAdapter

/-- **C1.** The structured-data adapter's merge: when a key is present on
both sides of two merged maps the merge recurses on its two values; when
both sides are arrays of primitives the result is the base array
de-duplicated in base order followed by the overlay elements not already
present (distinguishing values by type and value — the number `1` and the
string `"1"` are distinct); when either array has a non-primitive element
the merge fails with a typed `ArrayMergeError`; in every other case the
overlay's value (including `null`) replaces the base's. -/
theorem C1_structured_merge :
    (∀ (bf mf : List (String × Json)) (path key : String) (bv mv : Json) (out : Json),
        JsonAdapter.deepMerge (.obj bf) (.obj mf) path = .ok out →
        (mf.map Prod.fst).Nodup →
        JsonAdapter.lookupField bf key = some bv →
        JsonAdapter.lookupField mf key = some mv →
        ∃ res r, out = .obj res ∧
          JsonAdapter.deepMerge bv mv (JsonAdapter.childPath path key) = .ok r ∧
          JsonAdapter.lookupField res key = some r)
    ∧ (∀ (bs ms : List Json) (path : String),
        JsonAdapter.isArrayOfPrimitives bs = true →
        JsonAdapter.isArrayOfPrimitives ms = true →
        JsonAdapter.deepMerge (.arr bs) (.arr ms) path
          = .ok (.arr (dedupPreservingOrder bs ++ novelOverlayElems bs ms)))
    ∧ (∀ (bs ms : List Json) (path : String),
        ¬(JsonAdapter.isArrayOfPrimitives bs = true ∧
          JsonAdapter.isArrayOfPrimitives ms = true) →
        JsonAdapter.deepMerge (.arr bs) (.arr ms) path
          = .error ⟨if path = "" then "root" else path⟩)
    ∧ (∀ (base machine : Json) (path : String),
        ¬(∃ bf mf, base = .obj bf ∧ machine = .obj mf) →
        ¬(∃ bs ms, base = .arr bs ∧ machine = .arr ms) →
        JsonAdapter.deepMerge base machine path = .ok machine)
    ∧ JsonAdapter.deepMerge (.arr [.num 1]) (.arr [.str "1"]) ""
        = .ok (.arr [.num 1, .str "1"]) := by
  refine ⟨?_, ?_, ?_, ?_, rfl⟩
  · intro bf mf path key bv mv out h hnodup hbf hmf
    simp only [JsonAdapter.deepMerge] at h
    cases hres : JsonAdapter.mergeFields bf mf path with
    | ok res =>
      rw [hres] at h
      simp only [Except.map] at h
      cases h
      obtain ⟨r, hr, hl⟩ :=
        JsonAdapter.mergeFields_lookup_shared mf bf path key bv mv res hnodup hmf hbf hres
      exact ⟨res, r, rfl, hr, hl⟩
    | error e =>
      rw [hres] at h
      simp [Except.map] at h
  · intro bs ms path hb hm
    simp only [JsonAdapter.deepMerge]
    rw [JsonAdapter.mergeArrays_eq_spec bs ms path hb hm]
    rfl
  · intro bs ms path hnp
    simp only [JsonAdapter.deepMerge]
    have : (!JsonAdapter.isArrayOfPrimitives bs
        || !JsonAdapter.isArrayOfPrimitives ms) = true := by
      cases hb : JsonAdapter.isArrayOfPrimitives bs with
      | false => simp
      | true =>
        cases hm : JsonAdapter.isArrayOfPrimitives ms with
        | false => simp
        | true => exact absurd ⟨hb, hm⟩ hnp
    unfold JsonAdapter.mergeArrays
    rw [this]
    rfl
  · intro base machine path hobj harr
    cases base <;> cases machine <;> try rfl
    · exact absurd ⟨_, _, rfl, rfl⟩ harr
    · exact absurd ⟨_, _, rfl, rfl⟩ hobj

/-- Witness for C1: each hypothetical part applied at a concrete input. -/
theorem C1_structured_merge_witness :
    (∃ res r, Json.obj [("b", Json.num 3)] = Json.obj res ∧
        JsonAdapter.deepMerge (.num 2) (.num 3) (JsonAdapter.childPath "" "b") = .ok r ∧
        JsonAdapter.lookupField res "b" = some r)
    ∧ JsonAdapter.deepMerge (.arr [.str "a"]) (.arr [.str "b"]) ""
        = .ok (.arr (dedupPreservingOrder [.str "a"]
            ++ novelOverlayElems [.str "a"] [.str "b"]))
    ∧ JsonAdapter.deepMerge (.arr [.obj []]) (.arr []) "items" = .error ⟨"items"⟩
    ∧ JsonAdapter.deepMerge (.num 1) (.str "x") "" = .ok (.str "x") := by
  refine ⟨?_, ?_, ?_, ?_⟩
  · exact C1_structured_merge.1 [("b", .num 2)] [("b", .num 3)] "" "b"
      (.num 2) (.num 3) (.obj [("b", .num 3)]) rfl (by simp) rfl rfl
  · exact C1_structured_merge.2.1 [.str "a"] [.str "b"] "" rfl rfl
  · exact C1_structured_merge.2.2.1 [.obj []] [] "items" (by decide)
  · exact C1_structured_merge.2.2.2.1 (.num 1) (.str "x") ""
      (by rintro ⟨_, _, h, _⟩; exact Json.noConfusion h)
      (by rintro ⟨_, _, h, _⟩; exact Json.noConfusion h)

/-! ## JavaScript string primitives

The adapters and the scanner use a handful of JS string methods.  They are
implemented here on the character list underlying a Lean `String` (a JS
string is a sequence of code units; for the ASCII data of this repository
the two notions of character coincide). -/

namespace JsStr

/-- JS `String.prototype.trimStart`: drop leading whitespace. -/
def trimStart (s : String) : String := ⟨s.data.dropWhile Char.isWhitespace⟩

/-- JS `String.prototype.trimEnd`: drop trailing whitespace. -/
def trimEnd (s : String) : String := ⟨(s.data.reverse.dropWhile Char.isWhitespace).reverse⟩

/-- JS `String.prototype.trim`. -/
def trim (s : String) : String := trimStart (trimEnd s)

/-- JS `String.prototype.toLowerCase` (ASCII range). -/
def toLower (s : String) : String := ⟨s.data.map Char.toLower⟩

/-- JS `String.prototype.startsWith`. -/
def startsWith (s pre : String) : Bool := pre.data.isPrefixOf s.data

/-- JS `String.prototype.endsWith`. -/
def endsWith (s suf : String) : Bool := suf.data.isSuffixOf s.data

/-- Substring occurrence on character lists. -/
def isInfixChars (pat : List Char) : List Char → Bool
  | [] => pat.isEmpty
  | c :: cs => pat.isPrefixOf (c :: cs) || isInfixChars pat cs

/-- JS `String.prototype.includes`. -/
def includes (s sub : String) : Bool := isInfixChars sub.data s.data

/-- JS `String.prototype.slice(0, -n)`: all but the last `n` characters. -/
def dropRight (s : String) (n : Nat) : String := ⟨s.data.take (s.data.length - n)⟩

/-- The group splitter behind JS `String.prototype.split(sep)` for a
one-character separator. -/
def splitChars (sep : Char) : List Char → List (List Char)
  | [] => [[]]
  | c :: cs =>
    if c = sep then [] :: splitChars sep cs
    else
      match splitChars sep cs with
      | [] => [[c]]
      | g :: gs => (c :: g) :: gs

/-- JS `String.prototype.split(sep)` (one-character separator; note JS
`"".split(sep) = [""]`). -/
def split (sep : Char) (s : String) : List String :=
  (splitChars sep s.data).map fun g => ⟨g⟩

end JsStr

/-! ## The text-append adapter (`src/adapters/markdown-adapter.ts`) -/

namespace MarkdownAdapter

/-- `MarkdownAdapter.merge`: base right-trimmed, blank line, overlay trimmed
on both sides, trailing newline; a side that trims to empty yields the other
side (trimmed) plus one newline. -/
def merge (base machine : String) : String :=
  let trimmedBase := JsStr.trimEnd base
  let trimmedMachine := JsStr.trimEnd (JsStr.trimStart machine)
  if trimmedBase = "" then trimmedMachine ++ "\n"
  else if trimmedMachine = "" then trimmedBase ++ "\n"
  else trimmedBase ++ "\n\n" ++ trimmedMachine ++ "\n"

end MarkdownAdapter

/-- **C8 counterexample.** The claim's reading of the text-append merge fails
on the code: with both sides present the result carries a final newline the
claim's enumeration (base, separator, overlay) omits, and with the overlay
absent the result is not the base verbatim but the right-trimmed base plus a
newline. -/
theorem C8_text_append_counterexample :
    (MarkdownAdapter.merge "a" "b" = "a\n\nb\n"
      ∧ "a\n\nb\n" ≠ "a" ++ "\n\n" ++ "b")
    ∧ (MarkdownAdapter.merge "x" "" = "x\n" ∧ "x\n" ≠ "x") := by
  refine ⟨⟨?_, by decide⟩, ⟨?_, by decide⟩⟩ <;> decide

/-- **C8 (amended).** The text-append merge returns the base right-trimmed, a
blank-line separator, the overlay trimmed on both sides, and a single
trailing newline; when one side trims to empty the result is the other side
(trimmed the same way) followed by a single newline; when both trim to empty
the result is a single newline. -/
theorem C8_text_append_merge :
    (∀ base machine : String,
        JsStr.trimEnd base ≠ "" → JsStr.trimEnd (JsStr.trimStart machine) ≠ "" →
        MarkdownAdapter.merge base machine
          = JsStr.trimEnd base ++ "\n\n" ++ JsStr.trimEnd (JsStr.trimStart machine) ++ "\n")
    ∧ (∀ base machine : String, JsStr.trimEnd base = "" →
        MarkdownAdapter.merge base machine
          = JsStr.trimEnd (JsStr.trimStart machine) ++ "\n")
    ∧ (∀ base machine : String,
        JsStr.trimEnd base ≠ "" → JsStr.trimEnd (JsStr.trimStart machine) = "" →
        MarkdownAdapter.merge base machine = JsStr.trimEnd base ++ "\n")
    ∧ MarkdownAdapter.merge "" "" = "\n" := by
  refine ⟨?_, ?_, ?_, by decide⟩
  · intro base machine hb hm
    simp [MarkdownAdapter.merge, hb, hm]
  · intro base machine hb
    simp [MarkdownAdapter.merge, hb]
  · intro base machine hb hm
    simp [MarkdownAdapter.merge, hb, hm]

/-- Witness for the amended C8, at concrete inputs (note the whitespace-only
overlay counting as absent). -/
theorem C8_text_append_merge_witness :
    MarkdownAdapter.merge "a " " b " = "a" ++ "\n\n" ++ "b" ++ "\n"
    ∧ MarkdownAdapter.merge "  " "b" = "b" ++ "\n"
    ∧ MarkdownAdapter.merge "a" " " = "a" ++ "\n" := by
  refine ⟨?_, ?_, ?_⟩
  · have := C8_text_append_merge.1 "a " " b " (by decide) (by decide)
    simpa using this
  · have := C8_text_append_merge.2.1 "  " "b" (by decide)
    simpa using this
  · have := C8_text_append_merge.2.2.1 "a" " " (by decide) (by decide)
    simpa using this

/-! ## Path normalization (Node `path.normalize`, posix flavour)

Used by the cleanup reconciliation and the scanner's conflict validation for
comparing paths: `.` and empty segments are dropped and `..` segments are
resolved (kept at the front of a relative path, dropped at the root of an
absolute one). -/

/-- Resolve `..` segments against the accumulated (reversed) prefix. -/
def resolveDots (isAbs : Bool) : List String → List String → List String
  | [], acc => acc.reverse
  | seg :: rest, acc =>
    if seg = ".." then
      match acc with
      | [] => if isAbs then resolveDots isAbs rest [] else resolveDots isAbs rest [".."]
      | top :: accrest =>
        if top = ".." then resolveDots isAbs rest (seg :: acc)
        else resolveDots isAbs rest accrest
    else resolveDots isAbs rest (seg :: acc)

/-- Node `path.normalize` (posix). -/
def normalizePath (p : String) : String :=
  let isAbs := JsStr.startsWith p "/"
  let segs := (JsStr.split '/' p).filter fun s => !(s == "" || s == ".")
  let resolved := resolveDots isAbs segs []
  let body := String.intercalate "/" resolved
  if isAbs then "/" ++ body
  else if body = "" then "." else body

/-! ## Stale-output cleanup (`src/core/cleanup.ts`)

The filesystem is modelled as the list of existing paths together with
their file/directory kind; the manifest file as the outcome of reading and
JSON-parsing it (`JSON.parse` being an external builtin, its outcome — not
its text — is the model).  Renaming a path moves its entry; the recursive
removal of a colliding already-soft-deleted directory drops its entry. -/

namespace Cleanup

/-- `OutputManifest` from `src/core/cleanup.ts`. -/
structure OutputManifest where
  version : Nat
  outputs : List String
  lastRun : String
  deriving Repr, DecidableEq

/-- The outcome of reading the manifest file from disk. -/
inductive ManifestFile where
  | missing
  | unparsable
  | parsed (m : OutputManifest)
  deriving Repr, DecidableEq

/-- One existing filesystem path with its kind. -/
structure FsEntry where
  path : String
  isDirectory : Bool
  deriving Repr, DecidableEq

/-- The state the cleanup module reads and writes. -/
structure CleanupState where
  entries : List FsEntry
  manifest : ManifestFile
  deriving Repr, DecidableEq

/-- `CleanupResult` from `src/core/cleanup.ts`; errors are recorded by their
stale path. -/
structure CleanupResult where
  renamedFiles : List String
  renamedDirectories : List String
  errors : List String
  deriving Repr, DecidableEq

/-- `MANIFEST_VERSION`. -/
def MANIFEST_VERSION : Nat := 1

/-- `DELETED_SUFFIX`: the fixed literal suffix marking a soft-deleted path. -/
def DELETED_SUFFIX : String := ".permachine-deleted"

/-- `getDeletedPath`: append the fixed suffix. -/
def getDeletedPath (originalPath : String) : String :=
  originalPath ++ DELETED_SUFFIX

/-- `isDeletedPath`: does the path end with the fixed suffix? -/
def isDeletedPath (pathStr : String) : Bool :=
  JsStr.endsWith pathStr DELETED_SUFFIX

/-- `getOriginalPath`: `slice(0, -DELETED_SUFFIX.length)` on a deleted path,
identity otherwise. -/
def getOriginalPath (deletedPath : String) : String :=
  if !isDeletedPath deletedPath then deletedPath
  else JsStr.dropRight deletedPath DELETED_SUFFIX.length

/-- `loadManifest`: `null` when the file is missing, unparsable, or has the
wrong schema version. -/
def loadManifest (st : CleanupState) : Option OutputManifest :=
  match st.manifest with
  | .missing => none
  | .unparsable => none
  | .parsed m => if m.version ≠ MANIFEST_VERSION then none else some m

/-- `saveManifest`: unconditionally overwrite the manifest with the current
outputs and a fresh timestamp (`now` stands for `new Date().toISOString()`). -/
def saveManifest (st : CleanupState) (outputs : List String) (now : String) : CleanupState :=
  { st with manifest := .parsed ⟨MANIFEST_VERSION, outputs, now⟩ }

/-- `pathExists` (`fs.access`). -/
def pathExists (st : CleanupState) (pathStr : String) : Bool :=
  st.entries.any fun e => e.path == pathStr

/-- Result of `renameToDeleted`. -/
structure RenameResult where
  success : Bool
  isDirectory : Bool
  deriving Repr, DecidableEq

/-- `renameToDeleted`: stat the original (failure when absent), remove any
existing path at the deleted name, rename the original onto it. -/
def renameToDeleted (st : CleanupState) (originalPath : String) :
    RenameResult × CleanupState :=
  let deletedPath := getDeletedPath originalPath
  match st.entries.find? (fun e => e.path == originalPath) with
  | none => ({ success := false, isDirectory := false }, st)
  | some e =>
    let entries1 := st.entries.filter fun e' => e'.path != deletedPath
    let entries2 := entries1.map fun e' =>
      if e'.path == originalPath then { e' with path := deletedPath } else e'
    ({ success := true, isDirectory := e.isDirectory }, { st with entries := entries2 })

/-- The body of the `for (const stalePath of staleOutputs)` loop in
`cleanupStaleOutputs`. -/
def cleanupStep (acc : CleanupResult × CleanupState) (stalePath : String) :
    CleanupResult × CleanupState :=
  let (res, s) := acc
  if !pathExists s stalePath then (res, s)
  else
    let (rr, s') := renameToDeleted s stalePath
    if rr.success then
      if rr.isDirectory then
        ({ res with renamedDirectories := res.renamedDirectories ++ [stalePath] }, s')
      else
        ({ res with renamedFiles := res.renamedFiles ++ [stalePath] }, s')
    else ({ res with errors := res.errors ++ [stalePath] }, s')

/-- `cleanupStaleOutputs`: load the previous manifest (absent ⇒ just write
the new one), soft-delete every previous output that is neither current nor
already gone, then unconditionally save the current outputs. -/
def cleanupStaleOutputs (currentOutputs : List String) (st : CleanupState)
    (now : String) : CleanupResult × CleanupState :=
  match loadManifest st with
  | none => (⟨[], [], []⟩, saveManifest st currentOutputs now)
  | some previousManifest =>
    let currentSet := currentOutputs.map normalizePath
    let previousOutputs := previousManifest.outputs.map normalizePath
    let staleOutputs := previousOutputs.filter fun p => !(currentSet.contains p)
    let out := staleOutputs.foldl cleanupStep (⟨[], [], []⟩, st)
    (out.1, saveManifest out.2 currentOutputs now)

end Cleanup

/-- **C9.** Soft-delete naming round-trips: `getDeletedPath` appends the
fixed literal suffix `.permachine-deleted`, `isDeletedPath` recognizes the
result, `getOriginalPath` inverts it, and `getOriginalPath` is the identity
on a path that does not end in the suffix. -/
theorem C9_soft_delete_naming :
    (∀ p : String, Cleanup.getDeletedPath p = p ++ ".permachine-deleted")
    ∧ (∀ p : String, Cleanup.isDeletedPath (Cleanup.getDeletedPath p) = true)
    ∧ (∀ p : String, Cleanup.getOriginalPath (Cleanup.getDeletedPath p) = p)
    ∧ (∀ p : String, Cleanup.isDeletedPath p = false → Cleanup.getOriginalPath p = p) := by
  have hends : ∀ p : String, Cleanup.isDeletedPath (Cleanup.getDeletedPath p) = true := by
    intro p
    unfold Cleanup.isDeletedPath Cleanup.getDeletedPath JsStr.endsWith
    rw [List.isSuffixOf_iff_suffix, String.data_append]
    exact List.suffix_append _ _
  refine ⟨fun p => rfl, hends, ?_, ?_⟩
  · intro p
    unfold Cleanup.getOriginalPath
    rw [hends p]
    simp only [Bool.not_true, Bool.false_eq_true, if_false]
    unfold JsStr.dropRight Cleanup.getDeletedPath
    rw [String.data_append]
    have hsuf : Cleanup.DELETED_SUFFIX.length = Cleanup.DELETED_SUFFIX.data.length := rfl
    have hlen : (p.data ++ Cleanup.DELETED_SUFFIX.data).length - Cleanup.DELETED_SUFFIX.length
        = p.data.length := by
      rw [hsuf, List.length_append]
      omega
    rw [hlen, List.take_left]
  · intro p h
    unfold Cleanup.getOriginalPath
    rw [h]
    simp

/-- Witness for C9's identity-on-non-deleted-paths part. -/
theorem C9_soft_delete_naming_witness :
    Cleanup.getOriginalPath "config.json" = "config.json" :=
  C9_soft_delete_naming.2.2.2 "config.json" (by decide)

/-- **C10.** A missing, unparsable, or wrong-version manifest is treated as
no previous manifest: zero renames, no errors, and the manifest is
overwritten with the current outputs and a fresh timestamp. -/
theorem C10_manifest_reset :
    ∀ (cur : List String) (st : Cleanup.CleanupState) (now : String),
      (st.manifest = .missing ∨ st.manifest = .unparsable ∨
        (∃ m, st.manifest = .parsed m ∧ m.version ≠ Cleanup.MANIFEST_VERSION)) →
      (Cleanup.cleanupStaleOutputs cur st now).1 = ⟨[], [], []⟩
      ∧ (Cleanup.cleanupStaleOutputs cur st now).2 = Cleanup.saveManifest st cur now := by
  intro cur st now h
  have hload : Cleanup.loadManifest st = none := by
    rcases h with h | h | ⟨m, hm, hv⟩
    · simp [Cleanup.loadManifest, h]
    · simp [Cleanup.loadManifest, h]
    · simp [Cleanup.loadManifest, hm, hv]
  constructor <;> simp [Cleanup.cleanupStaleOutputs, hload]

/-- Witness for C10: a version-2 manifest naming a stale path that exists on
disk still causes zero renames. -/
theorem C10_manifest_reset_witness :
    (Cleanup.cleanupStaleOutputs ["a"]
        ⟨[⟨"old", false⟩], .parsed ⟨2, ["old"], "t"⟩⟩ "t2").1 = ⟨[], [], []⟩
    ∧ (Cleanup.cleanupStaleOutputs ["a"]
        ⟨[⟨"old", false⟩], .parsed ⟨2, ["old"], "t"⟩⟩ "t2").2
      = Cleanup.saveManifest ⟨[⟨"old", false⟩], .parsed ⟨2, ["old"], "t"⟩⟩ ["a"] "t2" :=
  C10_manifest_reset ["a"] ⟨[⟨"old", false⟩], .parsed ⟨2, ["old"], "t"⟩⟩ "t2"
    (.inr (.inr ⟨⟨2, ["old"], "t"⟩, rfl, by decide⟩))

/-- **C3.** Cleanup is idempotent: after `cleanupStaleOutputs currentOutputs`
the persisted manifest holds exactly `currentOutputs` with the fresh
timestamp, whatever renames occurred; and running it again with the same
`currentOutputs` on the unchanged resulting state performs zero additional
renames. -/
theorem C3_cleanup_idempotent :
    ∀ (cur : List String) (st : Cleanup.CleanupState) (now1 now2 : String),
      (Cleanup.cleanupStaleOutputs cur st now1).2.manifest
        = .parsed ⟨Cleanup.MANIFEST_VERSION, cur, now1⟩
      ∧ (Cleanup.cleanupStaleOutputs cur
          (Cleanup.cleanupStaleOutputs cur st now1).2 now2).1.renamedFiles = []
      ∧ (Cleanup.cleanupStaleOutputs cur
          (Cleanup.cleanupStaleOutputs cur st now1).2 now2).1.renamedDirectories = [] := by
  have hsave : ∀ (cur : List String) (st : Cleanup.CleanupState) (now : String),
      (Cleanup.cleanupStaleOutputs cur st now).2.manifest
        = .parsed ⟨Cleanup.MANIFEST_VERSION, cur, now⟩ := by
    intro cur st now
    unfold Cleanup.cleanupStaleOutputs
    cases hl : Cleanup.loadManifest st with
    | none => rfl
    | some m => rfl
  have hfilter : ∀ l : List String, (l.filter fun p => !(l.contains p)) = [] := by
    intro l
    rw [List.filter_eq_nil_iff]
    intro a ha
    simp [ha]
  have hrun2 : ∀ (cur : List String) (st2 : Cleanup.CleanupState) (now la : String),
      Cleanup.loadManifest st2 = some ⟨Cleanup.MANIFEST_VERSION, cur, la⟩ →
      (Cleanup.cleanupStaleOutputs cur st2 now).1 = ⟨[], [], []⟩ := by
    intro cur st2 now la hl
    simp only [Cleanup.cleanupStaleOutputs, hl]
    rw [hfilter (cur.map normalizePath)]
    rfl
  intro cur st now1 now2
  have hload1 : Cleanup.loadManifest (Cleanup.cleanupStaleOutputs cur st now1).2
      = some ⟨Cleanup.MANIFEST_VERSION, cur, now1⟩ := by
    simp [Cleanup.loadManifest, hsave cur st now1]
  refine ⟨hsave cur st now1, ?_, ?_⟩
  · rw [hrun2 cur _ now2 now1 hload1]
  · rw [hrun2 cur _ now2 now1 hload1]

/-! ## The filter language (`src/core/file-filters.ts`)

`parseFilters` scans a name for groups matching the regex
`\{([a-zA-Z0-9_-]+)(=|!=|~|\^)([a-zA-Z0-9_*.,\-]+)\}`.  The character
classes exclude the braces and the operator characters, so the regex engine
never backtracks inside a candidate: a deterministic maximal-munch scan is
its exact behaviour.  The scan advances at least one character per step, so
the input length bounds the number of steps; it is passed as a structural
counter. -/

namespace FileFilters

/-- A parsed `{key=value}` group (`Filter` in `file-filters.ts`); `key` and
`value` are stored lowercased, `raw` keeps the original text. -/
structure Filter where
  key : String
  operator : String
  value : String
  raw : String
  deriving Repr, DecidableEq

/-- `FilterContext`: dynamic string-keyed lookup.  An absent key is `none`
(JS `undefined`), a present-but-null key is `some none`. -/
abbrev FilterContext := List (String × Option String)

/-- `context[filter.key]` — first binding of the key. -/
def lookupCtx : FilterContext → String → Option (Option String)
  | [], _ => none
  | (k, v) :: rest, key => if k == key then some v else lookupCtx rest key

/-- Object-spread update used by `createCustomContext`: an existing key is
overwritten in place, a new key appended. -/
def setCtx : FilterContext → String → Option String → FilterContext
  | [], key, v => [(key, v)]
  | (k, w) :: rest, key, v =>
    if k == key then (k, v) :: rest else (k, w) :: setCtx rest key v

/-- `createCustomContext`: `{...base, ...overrides}`. -/
def createCustomContext (base : FilterContext)
    (overrides : List (String × Option String)) : FilterContext :=
  overrides.foldl (fun c p => setCtx c p.1 p.2) base

/-- The regex class `[a-zA-Z0-9_-]` (filter keys). -/
def isKeyChar (c : Char) : Bool :=
  c.isAlpha || c.isDigit || c == '_' || c == '-'

/-- The regex class `[a-zA-Z0-9_*.,\-]` (filter values). -/
def isValueChar (c : Char) : Bool :=
  c.isAlpha || c.isDigit || c == '_' || c == '*' || c == '.' || c == ',' || c == '-'

/-- The operator alternation `(=|!=|~|\^)`, tried in the regex's order. -/
def takeOp : List Char → Option (String × List Char)
  | '=' :: rest => some ("=", rest)
  | '!' :: '=' :: rest => some ("!=", rest)
  | '~' :: rest => some ("~", rest)
  | '^' :: rest => some ("^", rest)
  | _ => none

/-- Try to match one `{key op value}` group starting exactly here; on
success return the parsed filter (key and value lowercased as in
`parseFilters`) and the rest of the input. -/
def tryFilter : List Char → Option (Filter × List Char)
  | '{' :: rest =>
    let key := rest.takeWhile isKeyChar
    if key.isEmpty then none
    else
      match takeOp (rest.dropWhile isKeyChar) with
      | none => none
      | some (op, rest2) =>
        let value := rest2.takeWhile isValueChar
        if value.isEmpty then none
        else
          match rest2.dropWhile isValueChar with
          | '}' :: rest3 =>
            some ({ key := JsStr.toLower ⟨key⟩,
                    operator := op,
                    value := JsStr.toLower ⟨value⟩,
                    raw := "\x7b" ++ (⟨key⟩ : String) ++ op ++ (⟨value⟩ : String) ++ "\x7d" },
                  rest3)
          | _ => none
  | _ => none

/-- The `FILTER_REGEX.exec` loop: find the next match, continue after it;
no match here, advance one character.  `fuel` is the remaining-length
bound. -/
def extractFiltersGo : Nat → List Char → List Filter
  | 0, _ => []
  | _ + 1, [] => []
  | fuel + 1, c :: cs =>
    match tryFilter (c :: cs) with
    | some (f, rest) => f :: extractFiltersGo fuel rest
    | none => extractFiltersGo fuel cs

/-- All filter groups of a name, in order. -/
def extractFilters (filename : String) : List Filter :=
  extractFiltersGo filename.data.length filename.data

/-- `BASE_PLACEHOLDER_REGEX.test`: the literal `{base}`, case-insensitive. -/
def testBasePlaceholder (filename : String) : Bool :=
  JsStr.includes (JsStr.toLower filename) "{base}"

/-- Try to match `\.?\{[^}]+\}` starting exactly here (the strip-groups
regex of `parseFilters`): an optional dot, a brace group with a nonempty
body. -/
def tryGroup (cs : List Char) : Option (List Char) :=
  let afterBrace : List Char → Option (List Char) := fun rest =>
    let content := rest.takeWhile fun c => c ≠ '}'
    if content.isEmpty then none
    else
      match rest.dropWhile (fun c => c ≠ '}') with
      | '}' :: r => some r
      | _ => none
  match cs with
  | '.' :: '{' :: rest => afterBrace rest
  | '{' :: rest => afterBrace rest
  | _ => none

/-- The `replace(/\.?\{[^}]+\}/g, '')` scan. -/
def stripGroupsGo : Nat → List Char → List Char
  | 0, cs => cs
  | _ + 1, [] => []
  | fuel + 1, c :: cs =>
    match tryGroup (c :: cs) with
    | some rest => stripGroupsGo fuel rest
    | none => c :: stripGroupsGo fuel cs

/-- The `replace(/\.{2,}/g, '.')` clean-up: every maximal run of two or
more dots becomes one dot. -/
def collapseDotsGo (prevDot : Bool) : List Char → List Char
  | [] => []
  | c :: rest =>
    if c = '.' then
      if prevDot then collapseDotsGo true rest
      else '.' :: collapseDotsGo true rest
    else c :: collapseDotsGo false rest

/-- `ParseResult` from `file-filters.ts`. -/
structure ParseResult where
  filters : List Filter
  baseFilename : String
  hasBasePlaceholder : Bool
  deriving Repr, DecidableEq

/-- `parseFilters`: extract the groups, strip all `{...}` groups (with a
preceding dot) from the name, collapse doubled dots. -/
def parseFilters (filename : String) : ParseResult :=
  { filters := extractFilters filename
    baseFilename :=
      ⟨collapseDotsGo false (stripGroupsGo filename.data.length filename.data)⟩
    hasBasePlaceholder := testBasePlaceholder filename }

/-- `hasFilters`: any filter group or a `{base}` placeholder. -/
def hasFilters (filename : String) : Bool :=
  !(extractFilters filename).isEmpty || testBasePlaceholder filename

/-- `getBaseFilename`. -/
def getBaseFilename (filename : String) : String :=
  (parseFilters filename).baseFilename

/-- `evaluateEquals`: OR over the comma-separated list, case-insensitive
on both sides. -/
def evaluateEquals (filterValue contextValue : String) : Bool :=
  let options := (JsStr.split ',' filterValue).map fun v => JsStr.toLower (JsStr.trim v)
  options.contains (JsStr.toLower contextValue)

/-- Anchored glob matching (`*` = any run of characters), the semantics of
the regex `evaluateWildcard` builds. -/
def globMatch : List Char → List Char → Bool
  | [], [] => true
  | [], _ :: _ => false
  | '*' :: ps, [] => globMatch ps []
  | '*' :: ps, c :: cs => globMatch ps (c :: cs) || globMatch ('*' :: ps) cs
  | _ :: _, [] => false
  | p :: ps, c :: cs => p == c && globMatch ps cs
termination_by ps cs => (ps.length, cs.length)

/-- `evaluateWildcard` (the `i` flag makes it case-insensitive). -/
def evaluateWildcard (filterValue contextValue : String) : Bool :=
  globMatch (JsStr.toLower filterValue).data (JsStr.toLower contextValue).data

/-- The accumulated value of a digit run. -/
def digitsVal (ds : List Char) : Nat :=
  ds.foldl (fun acc c => acc * 10 + (c.toNat - '0'.toNat)) 0

/-- A decimal number `mantissa / 10^scale`, the value a finite decimal
string denotes. -/
structure DecNum where
  mantissa : Int
  scale : Nat
  deriving Repr, DecidableEq

/-- `10^n` over `Int`. -/
def pow10 : Nat → Int
  | 0 => 1
  | n + 1 => 10 * pow10 n

/-- Comparison of two decimal numbers by cross-multiplication. -/
def DecNum.le (a b : DecNum) : Bool :=
  a.mantissa * pow10 b.scale ≤ b.mantissa * pow10 a.scale

/-- JS `parseFloat` restricted to the shapes the range filter meets:
optional sign, integer digits, optional fraction; `none` for `NaN`.
(The exponent form of `parseFloat` is not modelled; range filters compare
plain version/number strings.) -/
def parseFloatNum (s : String) : Option DecNum :=
  let cs := (JsStr.trimStart s).data
  let signed : Int × List Char :=
    match cs with
    | '-' :: r => (-1, r)
    | '+' :: r => (1, r)
    | _ => (1, cs)
  let intPart := signed.2.takeWhile Char.isDigit
  let rest1 := signed.2.dropWhile Char.isDigit
  match rest1 with
  | '.' :: r2 =>
    let fracPart := r2.takeWhile Char.isDigit
    if intPart.isEmpty && fracPart.isEmpty then none
    else some ⟨signed.1 * ((digitsVal intPart : Int) * pow10 fracPart.length
      + (digitsVal fracPart : Int)), fracPart.length⟩
  | _ =>
    if intPart.isEmpty then none
    else some ⟨signed.1 * (digitsVal intPart : Int), 0⟩

/-- UTF-16 lexicographic `≤` (JS string relational operators). -/
def lexLe : List Char → List Char → Bool
  | [], _ => true
  | _ :: _, [] => false
  | a :: as, b :: bs =>
    if a.val < b.val then true
    else if b.val < a.val then false
    else lexLe as bs

/-- `evaluateRange`: numeric comparison when the bounds and the context
value all parse as numbers, else lexicographic string comparison. -/
def evaluateRange (filterValue contextValue : String) : Bool :=
  match (JsStr.split '-' filterValue).map JsStr.trim with
  | min :: max :: _ =>
    match parseFloatNum contextValue, parseFloatNum min, parseFloatNum max with
    | some nc, some nmin, some nmax => nmin.le nc && nc.le nmax
    | _, _, _ => lexLe min.data contextValue.data && lexLe contextValue.data max.data
  | _ => false

/-- `evaluateFilter`: an absent or null context key always fails; else
dispatch on the operator. -/
def evaluateFilter (filter : Filter) (context : FilterContext) : Bool :=
  match lookupCtx context filter.key with
  | none => false
  | some none => false
  | some (some contextValue) =>
    match filter.operator with
    | "=" => evaluateEquals filter.value contextValue
    | "!=" => !evaluateEquals filter.value contextValue
    | "~" => evaluateWildcard filter.value contextValue
    | "^" => evaluateRange filter.value contextValue
    | _ => false

/-- `MatchResult` from `file-filters.ts`. -/
structure MatchResult where
  «matches» : Bool
  failedFilters : List Filter
  context : FilterContext
  deriving Repr, DecidableEq

/-- `matchFilters`: no groups always matches; else every group must
evaluate true (the failed ones are reported). -/
def matchFilters (filename : String) (context : FilterContext) : MatchResult :=
  let filters := (parseFilters filename).filters
  if filters.isEmpty then
    { «matches» := true, failedFilters := [], context }
  else
    let failedFilters := filters.filter fun f => !evaluateFilter f context
    { «matches» := failedFilters.isEmpty, failedFilters, context }

/-- `isMatch`. -/
def isMatch (filename : String) (context : FilterContext) : Bool :=
  (matchFilters filename context).«matches»

/-- `isBaseFile`: the legacy `.base.`/`.base` marker or the `{base}`
placeholder. -/
def isBaseFile (filename : String) : Bool :=
  (JsStr.includes filename ".base." || JsStr.endsWith filename ".base")
    || (parseFilters filename).hasBasePlaceholder

/-- `isLegacyFilename`: a `.machineName.` infix or `.machineName` suffix
(case-insensitively; machine names contain no regex metacharacters) and no
new-style groups. -/
def isLegacyFilename (filename machineName : String) : Bool :=
  (JsStr.includes (JsStr.toLower filename) (JsStr.toLower ("." ++ machineName ++ "."))
    || JsStr.endsWith (JsStr.toLower filename) (JsStr.toLower ("." ++ machineName)))
  && !hasFilters filename

end FileFilters

/-- **C5.** Filter evaluation is the conjunction over the parsed groups:
`matchFilters` is true iff every group's operator-specific predicate holds
against the Context; a name with zero groups always matches; an `=` group
holds iff some comma-separated value equals the context value
case-insensitively; `!=` is the exact negation of `=` on a present context
value. -/
theorem C5_filter_evaluation :
    (∀ (filename : String) (ctx : FileFilters.FilterContext),
        (FileFilters.matchFilters filename ctx).«matches» = true
          ↔ ∀ f ∈ (FileFilters.parseFilters filename).filters,
              FileFilters.evaluateFilter f ctx = true)
    ∧ (∀ (filename : String) (ctx : FileFilters.FilterContext),
        (FileFilters.parseFilters filename).filters = [] →
        (FileFilters.matchFilters filename ctx).«matches» = true)
    ∧ (∀ (f : FileFilters.Filter) (ctx : FileFilters.FilterContext) (cv : String),
        FileFilters.lookupCtx ctx f.key = some (some cv) →
        f.operator = "=" →
        (FileFilters.evaluateFilter f ctx = true
          ↔ ∃ v ∈ JsStr.split ',' f.value,
              JsStr.toLower (JsStr.trim v) = JsStr.toLower cv))
    ∧ (∀ (key value raw raw' : String) (ctx : FileFilters.FilterContext) (cv : String),
        FileFilters.lookupCtx ctx key = some (some cv) →
        FileFilters.evaluateFilter ⟨key, "!=", value, raw⟩ ctx
          = !FileFilters.evaluateFilter ⟨key, "=", value, raw'⟩ ctx) := by
  have heq : ∀ (fv cv : String),
      (FileFilters.evaluateEquals fv cv = true
        ↔ ∃ v ∈ JsStr.split ',' fv, JsStr.toLower (JsStr.trim v) = JsStr.toLower cv) := by
    intro fv cv
    unfold FileFilters.evaluateEquals
    simp [List.mem_map]
  have h1 : ∀ (filename : String) (ctx : FileFilters.FilterContext),
      (FileFilters.matchFilters filename ctx).«matches» = true
        ↔ ∀ f ∈ (FileFilters.parseFilters filename).filters,
            FileFilters.evaluateFilter f ctx = true := by
    intro filename ctx
    cases hfl : (FileFilters.parseFilters filename).filters with
    | nil => simp [FileFilters.matchFilters, hfl]
    | cons f0 fs =>
      simp only [FileFilters.matchFilters, hfl, List.isEmpty_cons, Bool.false_eq_true,
        if_false, List.isEmpty_iff, List.filter_eq_nil_iff]
      constructor
      · intro h f hm
        have := h f hm
        simpa using this
      · intro h f hm
        simp [h f hm]
  refine ⟨h1, ?_, ?_, ?_⟩
  · intro filename ctx hf
    rw [h1]
    simp [hf]
  · intro f ctx cv hl hop
    obtain ⟨key, op, value, raw⟩ := f
    simp only at hl hop
    subst hop
    simp only [FileFilters.evaluateFilter, hl]
    exact heq value cv
  · intro key value raw raw' ctx cv hl
    simp only [FileFilters.evaluateFilter, hl]

/-- Witness for C5 at concrete names and contexts (note the
case-insensitive OR list and the negation). -/
theorem C5_filter_evaluation_witness :
    ((FileFilters.matchFilters "secrets.{machine=home}{user=jo}.json"
        [("machine", some "home"), ("user", some "jo")]).«matches» = true
      ↔ ∀ f ∈ (FileFilters.parseFilters "secrets.{machine=home}{user=jo}.json").filters,
          FileFilters.evaluateFilter f
            [("machine", some "home"), ("user", some "jo")] = true)
    ∧ (FileFilters.evaluateFilter ⟨"os", "=", "windows,linux", "{os=windows,linux}"⟩
          [("os", some "Linux")] = true
        ↔ ∃ v ∈ JsStr.split ',' "windows,linux",
            JsStr.toLower (JsStr.trim v) = JsStr.toLower "Linux")
    ∧ FileFilters.evaluateFilter ⟨"os", "!=", "windows", "{os!=windows}"⟩
          [("os", some "linux")]
        = !FileFilters.evaluateFilter ⟨"os", "=", "windows", "{os=windows}"⟩
          [("os", some "linux")] :=
  ⟨C5_filter_evaluation.1 "secrets.{machine=home}{user=jo}.json"
      [("machine", some "home"), ("user", some "jo")],
   C5_filter_evaluation.2.2.1 ⟨"os", "=", "windows,linux", "{os=windows,linux}"⟩
      [("os", some "Linux")] "Linux" rfl rfl,
   C5_filter_evaluation.2.2.2 "os" "windows" "{os!=windows}" "{os=windows}"
      [("os", some "linux")] "linux" rfl⟩

/-! ## The merge executor (`src/core/merger.ts`)

The filesystem is the list of existing files with their contents; the
adapter the factory returned for the output path is a parameter (the
factory dispatches over heterogeneous value types, so the executor is
generic in the parsed-value type `α`). -/

/-- The `type` discriminator of a merge operation. -/
inductive FileType where
  | json
  | env
  | unknown
  deriving Repr, DecidableEq

/-- `MergeOperation` from `src/core/file-scanner.ts`: `basePath` may be
`null`, `machinePath` may be the empty string (base-only operation). -/
structure MergeOperation where
  basePath : Option String
  machinePath : String
  outputPath : String
  type : FileType
  deriving Repr, DecidableEq

namespace Merger

/-- Existing files and their contents. -/
abbrev FileSystem := List (String × String)

/-- Content of an existing file. -/
def fsRead? (fs : FileSystem) (p : String) : Option String :=
  match fs.find? (fun e => e.1 == p) with
  | some e => some e.2
  | none => none

/-- `fs.writeFile`: overwrite or create. -/
def fsWrite (fs : FileSystem) (p content : String) : FileSystem :=
  if (fs.find? (fun e => e.1 == p)).isSome then
    fs.map fun e => if e.1 == p then (e.1, content) else e
  else fs ++ [(p, content)]

/-- `fileExists` from `merger.ts`: a null or empty path is falsy. -/
def fileExistsStr (fs : FileSystem) (p : String) : Bool :=
  if p = "" then false else (fsRead? fs p).isSome

/-- `fileExists` on the nullable base path. -/
def fileExistsOpt (fs : FileSystem) : Option String → Bool
  | none => false
  | some p => fileExistsStr fs p

/-- `fs.readFile` (only reached behind an existence check). -/
def fsReadStr (fs : FileSystem) (p : String) : String :=
  (fsRead? fs p).getD ""

/-- `fs.readFile` on the nullable base path. -/
def fsReadOpt (fs : FileSystem) : Option String → String
  | none => ""
  | some p => fsReadStr fs p

/-- A format adapter `{parse, merge, serialize}` (`src/adapters/base.ts`);
throwing methods return `Except`. -/
structure Adapter (α : Type) where
  parse : String → Except String α
  merge : α → α → Except String α
  serialize : α → String

/-- `MergeResult` from `merger.ts`. -/
structure MergeResult where
  success : Bool
  operation : MergeOperation
  changed : Bool
  skipped : Bool
  error : Option String
  deriving Repr, DecidableEq

/-- `performMerge`: no adapter ⇒ skipped with an error; neither source
exists ⇒ skipped without error; one source ⇒ its raw content; both ⇒
parse, merge, serialize (any raised error caught into `success = false`);
finally write only when the existing output differs. -/
def performMerge {α : Type} (adapter? : Option (Adapter α))
    (operation : MergeOperation) (fs : FileSystem) : MergeResult × FileSystem :=
  match adapter? with
  | none =>
    ({ success := false, operation, changed := false, skipped := true,
       error := some "No adapter found for file type" }, fs)
  | some adapter =>
    let baseExists := fileExistsOpt fs operation.basePath
    let machineExists := fileExistsStr fs operation.machinePath
    if !baseExists && !machineExists then
      ({ success := false, operation, changed := false, skipped := true,
         error := none }, fs)
    else
      let mergedContentE : Except String String :=
        if baseExists && machineExists then do
          let baseParsed ← adapter.parse (fsReadOpt fs operation.basePath)
          let machineParsed ← adapter.parse (fsReadStr fs operation.machinePath)
          let merged ← adapter.merge baseParsed machineParsed
          pure (adapter.serialize merged)
        else if machineExists then pure (fsReadStr fs operation.machinePath)
        else pure (fsReadOpt fs operation.basePath)
      match mergedContentE with
      | .error e =>
        ({ success := false, operation, changed := false, skipped := false,
           error := some e }, fs)
      | .ok mergedContent =>
        let outputExists := fileExistsStr fs operation.outputPath
        if outputExists && ((fsRead? fs operation.outputPath).getD "" == mergedContent) then
          ({ success := true, operation, changed := false, skipped := false,
             error := none }, fs)
        else
          ({ success := true, operation, changed := true, skipped := false,
             error := none }, fsWrite fs operation.outputPath mergedContent)

/-- `performAllMerges`: every operation in order, each on the filesystem
the previous ones produced; failures only get logged. -/
def performAllMerges {α : Type} (adapterFor : String → Option (Adapter α))
    (operations : List MergeOperation) (fs : FileSystem) :
    List MergeResult × FileSystem :=
  match operations with
  | [] => ([], fs)
  | op :: rest =>
    let step := performMerge (adapterFor op.outputPath) op fs
    let further := performAllMerges adapterFor rest step.2
    (step.1 :: further.1, further.2)

end Merger

/-- **C4.** The merge executor: with an adapter found, (a) neither source
existing yields `skipped = true`, `success = false` and no error with the
filesystem untouched; (b)/(c) exactly one source existing makes its raw
content the output verbatim, written only when the existing output differs
(`changed` exactly when a write occurred); (d) both existing makes
`serialize (merge (parse base) (parse overlay))` the output under the same
write-only-on-change rule. -/
theorem C4_merge_executor :
    ∀ {α : Type} (adapter : Merger.Adapter α) (op : MergeOperation)
      (fs : Merger.FileSystem),
      (Merger.fileExistsOpt fs op.basePath = false →
        Merger.fileExistsStr fs op.machinePath = false →
        Merger.performMerge (some adapter) op fs
          = ({ success := false, operation := op, changed := false, skipped := true,
               error := none }, fs))
      ∧ (Merger.fileExistsOpt fs op.basePath = false →
         Merger.fileExistsStr fs op.machinePath = true →
         Merger.performMerge (some adapter) op fs
          = (if Merger.fileExistsStr fs op.outputPath
                && ((Merger.fsRead? fs op.outputPath).getD ""
                    == Merger.fsReadStr fs op.machinePath) then
              ({ success := true, operation := op, changed := false, skipped := false,
                 error := none }, fs)
            else
              ({ success := true, operation := op, changed := true, skipped := false,
                 error := none },
               Merger.fsWrite fs op.outputPath (Merger.fsReadStr fs op.machinePath))))
      ∧ (Merger.fileExistsOpt fs op.basePath = true →
         Merger.fileExistsStr fs op.machinePath = false →
         Merger.performMerge (some adapter) op fs
          = (if Merger.fileExistsStr fs op.outputPath
                && ((Merger.fsRead? fs op.outputPath).getD ""
                    == Merger.fsReadOpt fs op.basePath) then
              ({ success := true, operation := op, changed := false, skipped := false,
                 error := none }, fs)
            else
              ({ success := true, operation := op, changed := true, skipped := false,
                 error := none },
               Merger.fsWrite fs op.outputPath (Merger.fsReadOpt fs op.basePath))))
      ∧ (∀ (b m g : α),
         Merger.fileExistsOpt fs op.basePath = true →
         Merger.fileExistsStr fs op.machinePath = true →
         adapter.parse (Merger.fsReadOpt fs op.basePath) = .ok b →
         adapter.parse (Merger.fsReadStr fs op.machinePath) = .ok m →
         adapter.merge b m = .ok g →
         Merger.performMerge (some adapter) op fs
          = (if Merger.fileExistsStr fs op.outputPath
                && ((Merger.fsRead? fs op.outputPath).getD "" == adapter.serialize g) then
              ({ success := true, operation := op, changed := false, skipped := false,
                 error := none }, fs)
            else
              ({ success := true, operation := op, changed := true, skipped := false,
                 error := none },
               Merger.fsWrite fs op.outputPath (adapter.serialize g)))) := by
  intro α adapter op fs
  refine ⟨?_, ?_, ?_, ?_⟩
  · intro hb hm
    simp [Merger.performMerge, hb, hm]
  · intro hb hm
    simp [Merger.performMerge, hb, hm, pure, Except.pure]
  · intro hb hm
    simp [Merger.performMerge, hb, hm, pure, Except.pure]
  · intro b m g hb hm hpb hpm hmg
    simp [Merger.performMerge, hb, hm, hpb, hpm, hmg, bind, Except.bind, pure, Except.pure]

/-- The text-append adapter packaged for the executor: in
`markdown-adapter.ts` `parse` and `serialize` are the identity and `merge`
never throws. -/
def mdAdapter : Merger.Adapter String :=
  { parse := fun content => .ok content
    merge := fun base machine => .ok (MarkdownAdapter.merge base machine)
    serialize := fun data => data }

/-- The operation used by the C4 witness. -/
def mdOp : MergeOperation :=
  ⟨some "/r/n.base.md", "/r/n.work.md", "/r/n.md", .unknown⟩

/-- Witness for C4: the four cases at concrete filesystems — skip, copy
with write, copy without write, merge with write. -/
theorem C4_merge_executor_witness :
    (Merger.performMerge (some mdAdapter) mdOp []
      = ({ success := false, operation := mdOp, changed := false, skipped := true,
           error := none }, []))
    ∧ (Merger.performMerge (some mdAdapter) mdOp [("/r/n.work.md", "hello")]
      = ({ success := true, operation := mdOp, changed := true, skipped := false,
           error := none }, [("/r/n.work.md", "hello"), ("/r/n.md", "hello")]))
    ∧ (Merger.performMerge (some mdAdapter) mdOp
        [("/r/n.base.md", "base"), ("/r/n.md", "base")]
      = ({ success := true, operation := mdOp, changed := false, skipped := false,
           error := none }, [("/r/n.base.md", "base"), ("/r/n.md", "base")]))
    ∧ (Merger.performMerge (some mdAdapter) mdOp
        [("/r/n.base.md", "a"), ("/r/n.work.md", "b"), ("/r/n.md", "old")]
      = ({ success := true, operation := mdOp, changed := true, skipped := false,
           error := none },
         [("/r/n.base.md", "a"), ("/r/n.work.md", "b"), ("/r/n.md", "a\n\nb\n")])) := by
  refine ⟨?_, ?_, ?_, ?_⟩
  · exact (C4_merge_executor mdAdapter mdOp []).1 rfl rfl
  · rw [(C4_merge_executor mdAdapter mdOp [("/r/n.work.md", "hello")]).2.1 rfl rfl]
    decide
  · rw [(C4_merge_executor mdAdapter mdOp
      [("/r/n.base.md", "base"), ("/r/n.md", "base")]).2.2.1 rfl rfl]
    decide
  · rw [(C4_merge_executor mdAdapter mdOp
      [("/r/n.base.md", "a"), ("/r/n.work.md", "b"), ("/r/n.md", "old")]).2.2.2
      "a" "b" "a\n\nb\n" rfl rfl rfl rfl rfl]
    decide

/-- **C7.** A parse or merge failure on an operation whose base and overlay
both exist yields `success = false` with an error and leaves the filesystem
— in particular the output path — untouched; and the batch runner produces
one result per operation in order, so a failure never prevents the
remaining operations from being executed. -/
theorem C7_merge_failure_isolated :
    (∀ {α : Type} (adapter : Merger.Adapter α) (op : MergeOperation)
      (fs : Merger.FileSystem),
      Merger.fileExistsOpt fs op.basePath = true →
      Merger.fileExistsStr fs op.machinePath = true →
      ((∃ e, adapter.parse (Merger.fsReadOpt fs op.basePath) = .error e)
        ∨ (∃ b, adapter.parse (Merger.fsReadOpt fs op.basePath) = .ok b
            ∧ ((∃ e, adapter.parse (Merger.fsReadStr fs op.machinePath) = .error e)
              ∨ (∃ m, adapter.parse (Merger.fsReadStr fs op.machinePath) = .ok m
                  ∧ ∃ e, adapter.merge b m = .error e)))) →
      (Merger.performMerge (some adapter) op fs).1.success = false
      ∧ (Merger.performMerge (some adapter) op fs).1.error.isSome = true
      ∧ (Merger.performMerge (some adapter) op fs).2 = fs)
    ∧ (∀ {α : Type} (adapterFor : String → Option (Merger.Adapter α))
        (ops : List MergeOperation) (fs : Merger.FileSystem),
        ((Merger.performAllMerges adapterFor ops fs).1.map fun r => r.operation) = ops) := by
  have hop : ∀ {α : Type} (a? : Option (Merger.Adapter α)) (op : MergeOperation)
      (fs : Merger.FileSystem), (Merger.performMerge a? op fs).1.operation = op := by
    intro α a? op fs
    cases a? with
    | none => rfl
    | some a =>
      simp only [Merger.performMerge]
      split
      · rfl
      · split
        · rfl
        · split <;> rfl
  constructor
  · intro α adapter op fs hb hm hfail
    rcases hfail with ⟨e, he⟩ | ⟨b, hpb, ⟨e, he⟩ | ⟨m, hpm, e, he⟩⟩
    · refine ⟨?_, ?_, ?_⟩ <;>
        simp [Merger.performMerge, hb, hm, he, bind, Except.bind]
    · refine ⟨?_, ?_, ?_⟩ <;>
        simp [Merger.performMerge, hb, hm, hpb, he, bind, Except.bind]
    · refine ⟨?_, ?_, ?_⟩ <;>
        simp [Merger.performMerge, hb, hm, hpb, hpm, he, bind, Except.bind]
  · intro α adapterFor ops fs
    induction ops generalizing fs with
    | nil => rfl
    | cons op rest ih =>
      simp [Merger.performAllMerges, ih, hop]

/-- Models the external `JSON.parse` builtin at the two fixture contents
the C7 witness reads (`JsonAdapter.parse` delegates to that builtin; the
parser is not repository code). -/
def parseFixture : String → Except String Json := fun s =>
  if s = "\x7b \"items\": [ \x7b\x7d ] \x7d" then .ok (.obj [("items", .arr [.obj []])])
  else if s = "\x7b \"items\": [] \x7d" then .ok (.obj [("items", .arr [])])
  else .error "Failed to parse JSON"

/-- The structured-data adapter over the fixture parse: its merge is the
embedded `JsonAdapter.merge` with the `ArrayMergeError` message; the
failing path never reaches `serialize` (the `JSON.stringify` builtin). -/
def jsonFixtureAdapter : Merger.Adapter Json :=
  { parse := parseFixture
    merge := fun base machine =>
      (JsonAdapter.merge base machine).mapError fun e =>
        "Cannot merge arrays containing non-primitive values at key \"" ++ e.key ++ "\""
    serialize := fun _ => "" }

/-- The failing operation of the C7 witness. -/
def jsonOpW : MergeOperation :=
  ⟨some "/r/cfg.base.json", "/r/cfg.work.json", "/r/cfg.json", .json⟩

/-- The filesystem of the C7 witness: both sources exist and the overlay's
array merge hits a non-primitive element. -/
def fsW : Merger.FileSystem :=
  [("/r/cfg.base.json", "\x7b \"items\": [ \x7b\x7d ] \x7d"),
   ("/r/cfg.work.json", "\x7b \"items\": [] \x7d"),
   ("/r/cfg.json", "old")]

/-- Witness for C7: the `ArrayMergeError` case fails softly, leaves the
output untouched, and a batch containing it still executes every
operation. -/
theorem C7_merge_failure_isolated_witness :
    ((Merger.performMerge (some jsonFixtureAdapter) jsonOpW fsW).1.success = false
      ∧ (Merger.performMerge (some jsonFixtureAdapter) jsonOpW fsW).1.error.isSome = true
      ∧ (Merger.performMerge (some jsonFixtureAdapter) jsonOpW fsW).2 = fsW)
    ∧ ((Merger.performAllMerges (fun _ => some jsonFixtureAdapter)
          [jsonOpW, jsonOpW] fsW).1.map fun r => r.operation) = [jsonOpW, jsonOpW] := by
  refine ⟨?_, ?_⟩
  · exact C7_merge_failure_isolated.1 jsonFixtureAdapter jsonOpW fsW rfl rfl
      (.inr ⟨.obj [("items", .arr [.obj []])], rfl,
        .inr ⟨.obj [("items", .arr [])], rfl,
          ⟨"Cannot merge arrays containing non-primitive values at key \"items\"", rfl⟩⟩⟩)
  · exact C7_merge_failure_isolated.2 (fun _ => some jsonFixtureAdapter) [jsonOpW, jsonOpW] fsW

/-! ## Node `path` helpers (posix flavour), used by the scanner -/

namespace NodePath

/-- Node `path.basename` (no-extension form). -/
def basename (p : String) : String :=
  (((JsStr.split '/' p).filter fun s => s ≠ "").getLast?).getD ""

/-- Node `path.dirname`. -/
def dirname (p : String) : String :=
  let cs := p.data
  let afterLen := (cs.reverse.takeWhile fun c => c ≠ '/').length
  if afterLen = cs.length then "."
  else
    let dirLen := cs.length - afterLen - 1
    if dirLen = 0 then "/" else ⟨cs.take dirLen⟩

/-- Node `path.extname`: from the last dot of the basename, unless that dot
leads the basename. -/
def extname (p : String) : String :=
  let b := (basename p).data
  let afterDotLen := (b.reverse.takeWhile fun c => c ≠ '.').length
  if afterDotLen = b.length then ""
  else
    let dotIdx := b.length - afterDotLen - 1
    if dotIdx = 0 then "" else ⟨b.drop dotIdx⟩

/-- Node `path.join`: join the nonempty parts with `/` and normalize. -/
def join (parts : List String) : String :=
  normalizePath (String.intercalate "/" (parts.filter fun s => s ≠ ""))

/-- Strip a known extension, as `path.basename(file, ext)` does. -/
def basenameStrip (p ext : String) : String :=
  let b := basename p
  if ext ≠ "" && JsStr.endsWith b ext then JsStr.dropRight b ext.length else b

end NodePath

/-! ## The operation scanner (`src/core/file-scanner.ts`)

`glob` is an external library: the scanner receives the de-duplicated
union of the overlay-pattern matches (`uniqueFiles`) and the concatenated
base-pattern matches (`baseFiles`) as parameters, and processes them with
the loop bodies of `scanForMergeOperations` translated clause for clause. -/

namespace FileScanner

/-- `DirectoryCopyOperation` from `file-scanner.ts` (the constant
`type: 'directory'` discriminator is omitted). -/
structure DirectoryCopyOperation where
  sourcePath : String
  outputPath : String
  deriving Repr, DecidableEq

/-- `getFileType` from `src/adapters/adapter-factory.ts`. -/
def getFileType (filename : String) : FileType :=
  let b := NodePath.basename filename
  if JsStr.startsWith b ".env" then .env
  else
    let ext := NodePath.extname filename
    if ext = ".json" || ext = ".jsonc" then .json
    else .unknown

/-- JS `String.prototype.replace` with a plain-string pattern: first
occurrence only. -/
def replaceFirstChars (pat repl : List Char) : List Char → List Char
  | [] => []
  | c :: cs =>
    if pat.isPrefixOf (c :: cs) then repl ++ (c :: cs).drop pat.length
    else c :: replaceFirstChars pat repl cs

/-- JS `s.replace(pat, repl)` for string patterns. -/
def replaceFirst (s pat repl : String) : String :=
  ⟨replaceFirstChars pat.data repl.data s.data⟩

/-- `replace(/\.jsonc$/, '.json')`. -/
def replaceJsoncExt (s : String) : String :=
  if JsStr.endsWith s ".jsonc" then JsStr.dropRight s 6 ++ ".json" else s

/-- `replace(/\.(json|jsonc)$/, '')`. -/
def stripJsonExt (s : String) : String :=
  if JsStr.endsWith s ".jsonc" then JsStr.dropRight s 6
  else if JsStr.endsWith s ".json" then JsStr.dropRight s 5
  else s

/-- `createMergeOperation`: derive the base and output names from an
overlay file in either the bracketed-filter or the legacy dotted-machine
convention. -/
def createMergeOperation (machineFile machineName cwd : String) : Option MergeOperation :=
  let dir := NodePath.dirname machineFile
  let fullBasename := NodePath.basename machineFile
  let type := getFileType fullBasename
  let ext := NodePath.extname machineFile
  if type = .unknown then none
  else
    let names? : Option (String × String) :=
      if FileFilters.hasFilters fullBasename then
        let outputName0 := FileFilters.getBaseFilename fullBasename
        let outputName :=
          if type = .json && JsStr.endsWith outputName0 ".jsonc" then
            replaceJsoncExt outputName0
          else outputName0
        if type = .env then some (outputName ++ ".base", outputName)
        else some (stripJsonExt outputName ++ ".base" ++ ext, outputName)
      else
        let bn := if type = .env then fullBasename
                  else NodePath.basenameStrip machineFile ext
        let machinePattern := "." ++ machineName
        if JsStr.endsWith bn machinePattern then
          let withoutMachine := JsStr.dropRight bn machinePattern.length
          if type ≠ .env then
            let outputExt := if ext = ".jsonc" then ".json" else ext
            some (withoutMachine ++ ".base" ++ ext, withoutMachine ++ outputExt)
          else some (withoutMachine ++ ".base", withoutMachine)
        else none
    match names? with
    | none => none
    | some (baseName, outputName) =>
      some { basePath := some (NodePath.join [cwd, dir, baseName])
             machinePath := NodePath.join [cwd, machineFile]
             outputPath := NodePath.join [cwd, dir, outputName]
             type := type }

/-- `createBaseOnlyMergeOperation`: derive the output name from a base
file when no overlay produced an operation for it. -/
def createBaseOnlyMergeOperation (baseFile cwd : String) : Option MergeOperation :=
  let dir := NodePath.dirname baseFile
  let fullBasename := NodePath.basename baseFile
  let type := getFileType fullBasename
  if type = .unknown then none
  else
    let outputName0 := replaceFirst (replaceFirst fullBasename ".base" "") ".{base}" ""
    let outputName :=
      if type ≠ .env && JsStr.endsWith outputName0 ".jsonc" then
        replaceJsoncExt outputName0
      else outputName0
    some { basePath := some (NodePath.join [cwd, baseFile])
           machinePath := ""
           outputPath := NodePath.join [cwd, dir, outputName]
           type := type }

/-- The loop state of `scanForMergeOperations`. -/
structure ScanState where
  operations : List MergeOperation
  processedOutputs : List String
  baseFilesWithMachineFiles : List String
  deriving Repr, DecidableEq

/-- Record the overlay's base path in `baseFilesWithMachineFiles`
(`if (operation && operation.basePath)`). -/
def trackBase (st : ScanState) (op? : Option MergeOperation) : ScanState :=
  match op? with
  | some operation =>
    match operation.basePath with
    | some bp =>
      if bp = "" then st
      else { st with baseFilesWithMachineFiles := st.baseFilesWithMachineFiles ++ [bp] }
    | none => st
  | none => st

/-- The body of the first loop of `scanForMergeOperations`: skip base
files; a bracketed-filter name is processed iff it matches the context
(and its base is tracked either way); a legacy name for this machine is
always processed (and tracked). -/
def scanStep (machineName cwd : String) (context : FileFilters.FilterContext)
    (st : ScanState) (file : String) : ScanState :=
  let basename := NodePath.basename file
  if FileFilters.isBaseFile basename then st
  else
    let step : Bool × ScanState :=
      if FileFilters.hasFilters basename then
        ((FileFilters.matchFilters basename context).«matches»,
         trackBase st (createMergeOperation file machineName cwd))
      else if FileFilters.isLegacyFilename basename machineName then
        (true, trackBase st (createMergeOperation file machineName cwd))
      else (false, st)
    if step.1 then
      match createMergeOperation file machineName cwd with
      | some operation =>
        { step.2 with
          operations := step.2.operations ++ [operation]
          processedOutputs := step.2.processedOutputs ++ [operation.outputPath] }
      | none => step.2
    else step.2

/-- The body of the base-file loop of `scanForMergeOperations`: skip a base
with recorded machine-specific versions, emit a base-only operation unless
its output was already produced. -/
def basePassStep (cwd : String) (st : ScanState) (baseFile : String) : ScanState :=
  let fullPath := NodePath.join [cwd, baseFile]
  if st.baseFilesWithMachineFiles.contains fullPath then st
  else
    match createBaseOnlyMergeOperation baseFile cwd with
    | some operation =>
      if st.processedOutputs.contains operation.outputPath then st
      else
        { st with
          operations := st.operations ++ [operation]
          processedOutputs := st.processedOutputs ++ [operation.outputPath] }
    | none => st

/-- `scanForMergeOperations` over the glob results: `uniqueFiles` is the
de-duplicated union of the overlay patterns' matches, `baseFiles` the
concatenation of the base patterns' matches, `ambient` the process
context (`createCustomContext` overrides its machine name). -/
def scanForMergeOperations (machineName cwd : String)
    (uniqueFiles baseFiles : List String)
    (ambient : FileFilters.FilterContext) : List MergeOperation :=
  let context := FileFilters.createCustomContext ambient [("machine", some machineName)]
  let st1 := uniqueFiles.foldl (scanStep machineName cwd context) ⟨[], [], []⟩
  let st2 := baseFiles.foldl (basePassStep cwd) st1
  st2.operations

/-- The typed `FileDirectoryConflictError` payload. -/
structure FileDirectoryConflictErr where
  outputPath : String
  fileSource : String
  dirSource : String
  deriving Repr, DecidableEq

/-- JS `Map.set`: overwrite in place or append. -/
def mapSet (acc : List (String × String)) (k v : String) : List (String × String) :=
  if acc.any (fun e => e.1 == k) then
    acc.map fun e => if e.1 == k then (e.1, v) else e
  else acc ++ [(k, v)]

/-- `validateNoFileDirectoryConflicts`: throw when a file output lies
strictly beneath a directory output (`startsWith(dir + path.sep)`). -/
def validateNoFileDirectoryConflicts (mergeOperations : List MergeOperation)
    (directoryOperations : List DirectoryCopyOperation) :
    Except FileDirectoryConflictErr Unit :=
  let fileOutputs := mergeOperations.foldl
    (fun acc op => mapSet acc op.outputPath op.machinePath) []
  let conflict? := directoryOperations.findSome? fun dirOp =>
    fileOutputs.findSome? fun e =>
      if JsStr.startsWith (normalizePath e.1) (normalizePath dirOp.outputPath ++ "/") then
        some ⟨e.1, e.2, dirOp.sourcePath⟩
      else none
  match conflict? with
  | some e => .error e
  | none => .ok ()

end FileScanner

/-- The ambient context of the C2 evaluation: a linux host. -/
def linuxCtx : FileFilters.FilterContext :=
  [("os", some "linux"), ("arch", some "x64"), ("machine", some "host"),
   ("user", some "u"), ("env", none), ("platform", some "linux")]

/-- **C2 (code bug).** A base whose only overlay fails the Context is
silently dropped: `config.{os=windows}.json` does not match the linux
context, yet the scan returns no operation at all — no base-only
`MergeOperation` for `config.base.json` — because the first loop records
the base in `baseFilesWithMachineFiles` even for a non-matching overlay
and the base loop skips everything so recorded.  The same tree without the
overlay does produce the base-only operation. -/
theorem C2_base_only_dropped :
    FileFilters.isMatch "config.{os=windows}.json"
      (FileFilters.createCustomContext linuxCtx [("machine", some "mymachine")]) = false
    ∧ FileScanner.scanForMergeOperations "mymachine" "/repo"
        ["config.{os=windows}.json"] ["config.base.json"] linuxCtx = []
    ∧ FileScanner.scanForMergeOperations "mymachine" "/repo"
        [] ["config.base.json"] linuxCtx
      = [⟨some "/repo/config.base.json", "", "/repo/config.json", .json⟩] := by
  refine ⟨by decide, by decide, by decide⟩

/-- The colliding operations of the C6 evaluation: the `.env` merge output
and the directory-copy output are the same path. -/
def conflictMergeOp : MergeOperation :=
  ⟨none, "/repo/.env.{machine=x}", "/repo/.env", .env⟩

/-- The directory operation whose output equals `conflictMergeOp`'s. -/
def conflictDirOp : FileScanner.DirectoryCopyOperation :=
  ⟨"/repo/.env.{machine=x}d", "/repo/.env"⟩

/-- **C6 (code bug).** A merge output that *equals* a directory output
passes `validateNoFileDirectoryConflicts` without an error — only outputs
strictly beneath a directory output are detected (third conjunct), though
the function's own comment says "inside or equal to". -/
theorem C6_equal_output_conflict_missed :
    conflictMergeOp.outputPath = conflictDirOp.outputPath
    ∧ FileScanner.validateNoFileDirectoryConflicts [conflictMergeOp] [conflictDirOp]
        = .ok ()
    ∧ FileScanner.validateNoFileDirectoryConflicts
        [⟨some "/repo/configs/app.base.json", "/repo/configs/app.{machine=x}.json",
          "/repo/configs/app.json", .json⟩]
        [⟨"/repo/configs.{machine=x}", "/repo/configs"⟩]
      = .error ⟨"/repo/configs/app.json", "/repo/configs/app.{machine=x}.json",
                "/repo/configs.{machine=x}"⟩ :=
  ⟨rfl, rfl, rfl⟩

end Permachine
